import Mathlib

/-!
# a2jmidi — verification of the event ingestion chain, deadline drain and clock reconciler

Shallow embedding of the core of the a2jmidi bridge:

* `receiverQueue` — the ALSA receiver queue (`src/alsa_receiver_queue.cpp`):
  the chain of asynchronously produced event batches, the deadline-bounded
  drain (`processInternal` / `process`), capture of sequencer events
  (`retrieveEvents` within `listenForEvents`), and the lifecycle
  (`startInternal` / `stopInternal` / `stop`).
* `alsaClient` — the public drain entry point (`retrieve`,
  `src/alsa_client.cpp:569-589`) including the error-propagating closure.
* `jackClient` — the frame/duration conversions (`duration2frames`,
  `frames2duration`, `src/jack_client.h:50-63`) and a model of the
  deadline plausibility logic whose implementation is not present in the
  source tree (only its `g_resetTimingCount` declaration in
  `jack_client.h:64-68` and its tests are).

Modelling conventions: wall-clock time points (`sysClock::TimePoint`,
ticks of the system clock) are natural numbers; a raw
`snd_seq_event_t` is represented by the MIDI byte string that
`snd_midi_event_decode` would produce for it (empty for non-MIDI or
undecodable events) — the decoder itself is part of alsa-lib, outside
this repository; C++ `double` intermediate values are modelled as exact
rationals.  Concurrency is elided: the chain is modelled as the value
the draining thread observes, with an unresolved (`pending`) tail, and
the background listener's contribution is the `appendCapture` step that
resolves that tail to a freshly captured batch followed by a new
unresolved tail.
-/

namespace receiverQueue

/-- A raw ALSA sequencer event (`snd_seq_event_t`).  The field `midi` is
the byte string that `snd_midi_event_decode` yields for the event; it is
empty when the event does not correspond to a MIDI message or cannot be
decoded (`parseAlsaEvent` in `alsa_client.cpp:310-326` returns
`emptyEvent` in those cases). -/
structure SndSeqEvent where
  midi : List Nat
deriving DecidableEq

/-- The queue as observed by the draining thread: the `FutureAlsaEvents`
head of the chain (`alsa_receiver_queue.cpp`).

* `invalid`   — a default-constructed or moved-from `std::future`
  (`valid()` is `false`);
* `pending`   — a valid future whose listener thread has not yet produced
  a batch (`wait_for(0)` is not `ready`);
* `cancelled` — a ready future holding the stored `InterruptedException`
  (the listener observed the shutdown flag); `get()` throws;
* `batch`     — a ready future resolved to an `AlsaEventBatch`
  holding `m_eventList`, `m_timeStamp` and `m_next`. -/
inductive FutureAlsaEvents where
  | invalid : FutureAlsaEvents
  | pending : FutureAlsaEvents
  | cancelled : FutureAlsaEvents
  | batch (events : List SndSeqEvent) (timeStamp : Nat) (next : FutureAlsaEvents) :
      FutureAlsaEvents
deriving DecidableEq

/-- Embedding of `isReady` (`alsa_receiver_queue.cpp:182-191`): the future
is valid and `wait_for(0)` reports `ready`.  A `cancelled` future is ready
(its stored exception is a result); an `invalid` or `pending` one is
not. -/
def isReady : FutureAlsaEvents → Bool
  | .invalid => false
  | .pending => false
  | .cancelled => true
  | .batch _ _ _ => true

/-- Embedding of `FutureAlsaEvents::valid()`: `false` exactly for a
default-constructed or moved-from future. -/
def validFuture : FutureAlsaEvents → Bool
  | .invalid => false
  | _ => true

/-- Embedding of `processInternal` (`alsa_receiver_queue.cpp:193-220`).
While the head is ready: take the batch; if `timestamp >= deadline`
re-wrap the unmodified batch into an already-resolved future and return
it; otherwise invoke the closure once per event of the batch (in the
order of the stored event list, via `invokeClosureForeachEvent`, lines
170-175) and continue with `grabNext()`.  Calling `get()` on a
`cancelled` future throws `InterruptedException`, which is caught,
leaving the moved-from (invalid) future as the result.  The returned
pair is (new head, list of `(event, timeStamp)` closure invocations in
order). -/
def processInternal : FutureAlsaEvents → Nat → FutureAlsaEvents × List (SndSeqEvent × Nat)
  | .invalid, _ => (.invalid, [])
  | .pending, _ => (.pending, [])
  | .cancelled, _ => (.invalid, [])
  | .batch events timeStamp next, deadline =>
    if timeStamp ≥ deadline then
      (.batch events timeStamp next, [])
    else
      let rest := processInternal next deadline
      (rest.1, events.map (fun e => (e, timeStamp)) ++ rest.2)

/-- Embedding of `process` (`alsa_receiver_queue.cpp:233-238`): under the
queue mutex, run `processInternal` on the stored head, but only when the
head future is valid. -/
def process (queueHead : FutureAlsaEvents) (deadline : Nat) :
    FutureAlsaEvents × List (SndSeqEvent × Nat) :=
  if validFuture queueHead then processInternal queueHead deadline else (queueHead, [])

/-- Embedding of `retrieveEvents` (`alsa_receiver_queue.cpp:277-297`):
drain the sequencer FIFO.  `snd_seq_event_input` yields the events in
arrival order; each is prepended to the `forward_list` with
`push_front`, so the resulting batch list is the reverse of the arrival
order. -/
def retrieveEvents (fifo : List SndSeqEvent) : List SndSeqEvent :=
  fifo.foldl (fun eventList e => e :: eventList) []

/-- List of the batches of a chain in chain (arrival) order, each as its
stored event list with its timestamp. -/
def chainBatches : FutureAlsaEvents → List (List SndSeqEvent × Nat)
  | .batch events timeStamp next => (events, timeStamp) :: chainBatches next
  | _ => []

/-- Timestamps are non-decreasing along the chain: each batch's timestamp
is at most every later batch's timestamp.  This holds of the real queue
by construction, since the single listener stamps batches with
`sysClock::now()` in creation order (`alsa_receiver_queue.cpp:333`). -/
def chainTimestampsMono : FutureAlsaEvents → Prop
  | .batch _ timeStamp next =>
      (∀ b ∈ chainBatches next, timeStamp ≤ b.2) ∧ chainTimestampsMono next
  | _ => True

/-- The chain built from a list of captures, each given as the sequencer
FIFO content (in arrival order) and the capture timestamp: every capture
became one resolved `AlsaEventBatch` whose event list was produced by
`retrieveEvents`, ending in the listener's still-unresolved tail
(`listenForEvents`, `alsa_receiver_queue.cpp:312-343`). -/
def chainOfCaptures : List (List SndSeqEvent × Nat) → FutureAlsaEvents
  | [] => .pending
  | b :: rest => .batch (retrieveEvents b.1) b.2 (chainOfCaptures rest)

/-- One step of the background listener (`listenForEvents` +
`startNextFuture`, `alsa_receiver_queue.cpp:312-353`): the unresolved
tail of the chain resolves to a batch holding `retrieveEvents fifo`,
stamped `timeStamp`, followed by a freshly spawned unresolved future.  A
chain without an unresolved tail (stopped or cancelled queue) is left
unchanged. -/
def appendCapture : FutureAlsaEvents → List SndSeqEvent → Nat → FutureAlsaEvents
  | .batch events timeStamp next, fifo, t =>
      .batch events timeStamp (appendCapture next fifo t)
  | .pending, fifo, t => .batch (retrieveEvents fifo) t .pending
  | c, _, _ => c

/-- An interleaving of listener activity and drain calls against the
chain: `capture fifo t` is one listener wakeup that captured the FIFO
content `fifo` (in arrival order) at time `t`; `drain d` is one
`processInternal` call with deadline `d`. -/
inductive ChainOp where
  | capture (fifo : List SndSeqEvent) (timeStamp : Nat) : ChainOp
  | drain (deadline : Nat) : ChainOp

/-- Run a script of captures and drains against a chain, accumulating
the closure invocations of all the drain calls in order. -/
def runChain : FutureAlsaEvents → List ChainOp → FutureAlsaEvents × List (SndSeqEvent × Nat)
  | c, [] => (c, [])
  | c, .capture fifo t :: ops => runChain (appendCapture c fifo t) ops
  | c, .drain d :: ops =>
    let res := processInternal c d
    let rest := runChain res.1 ops
    (rest.1, res.2 ++ rest.2)

/-- The deadlines of the drain calls of a script, in order. -/
def deadlinesOf : List ChainOp → List Nat
  | [] => []
  | .capture _ _ :: ops => deadlinesOf ops
  | .drain d :: ops => d :: deadlinesOf ops

/-- Every drain call's deadline strictly exceeds the timestamps of all
captures that precede it in the script ("deadlines each exceeding all
prior event timestamps"). -/
def drainsCoverPrior : List ChainOp → Prop
  | [] => True
  | .capture _ t :: ops => (∀ d ∈ deadlinesOf ops, t < d) ∧ drainsCoverPrior ops
  | .drain _ :: ops => drainsCoverPrior ops

/-- The script's last operation is a drain call (so every capture is
followed by at least one drain). -/
def endsWithDrain : List ChainOp → Bool
  | [] => false
  | [ChainOp.drain _] => true
  | [ChainOp.capture _ _] => false
  | _ :: op2 :: ops => endsWithDrain (op2 :: ops)

/-- All events captured by a script, tagged with their capture
timestamp, in capture order, with the events of one capture listed in
reverse arrival order (which is how `retrieveEvents` stores them). -/
def capturedEvents : List ChainOp → List (SndSeqEvent × Nat)
  | [] => []
  | .capture fifo t :: ops =>
      fifo.reverse.map (fun e => (e, t)) ++ capturedEvents ops
  | .drain _ :: ops => capturedEvents ops

/-- Embedding of the queue state enum `State`
(`alsa_receiver_queue.h`). -/
inductive State where
  | stopped : State
  | running : State
deriving DecidableEq

/-- The file-static globals of `alsa_receiver_queue.cpp`:
`g_carryOnFlag` (line 52), `g_stateFlag` (line 59) and `g_queueHead`
(line 68). -/
structure QueueGlobals where
  carryOnFlag : Bool
  stateFlag : State
  queueHead : FutureAlsaEvents
deriving DecidableEq

/-- Embedding of `stopInternal` (`alsa_receiver_queue.cpp:242-253`):
clear `g_carryOnFlag`, wait two poll quanta for the listener to observe
it (concurrency elided — after the bounded wait the dangling future has
resolved to `Cancelled` and is then overwritten), replace `g_queueHead`
by an empty (invalid) future — destroying every reachable batch as the
`unique_ptr` chain unwinds — and set the state to `stopped`. -/
def stopInternal (_q : QueueGlobals) : QueueGlobals :=
  { carryOnFlag := false, stateFlag := .stopped, queueHead := .invalid }

/-- Embedding of `stop` (`alsa_receiver_queue.cpp:261-267`): take the
queue mutex for the whole shutdown and run `stopInternal`. -/
def stop (q : QueueGlobals) : QueueGlobals := stopInternal q

/-- Embedding of `start` / `startInternal`
(`alsa_receiver_queue.cpp:364-383`).  Starting a running queue first
runs `stopInternal` and then throws (the head assignment is skipped);
the Boolean result records normal completion.  Otherwise the carry-on
flag is raised, the state becomes `running` and the head becomes the
freshly spawned (unresolved) future. -/
def start (q : QueueGlobals) : QueueGlobals × Bool :=
  if q.stateFlag = .running then (stopInternal q, false)
  else ({ carryOnFlag := true, stateFlag := .running, queueHead := .pending }, true)

/-- An operation against the queue globals: a `start()` call, a `stop()`
call, a `process(deadline, closure)` call, or one background-listener
capture. -/
inductive GlobalOp where
  | startOp : GlobalOp
  | stopOp : GlobalOp
  | processOp (deadline : Nat) : GlobalOp
  | captureOp (fifo : List SndSeqEvent) (timeStamp : Nat) : GlobalOp

/-- Effect of one operation on the queue globals. -/
def stepQueue (q : QueueGlobals) : GlobalOp → QueueGlobals
  | .startOp => (start q).1
  | .stopOp => stop q
  | .processOp d => { q with queueHead := (process q.queueHead d).1 }
  | .captureOp fifo t => { q with queueHead := appendCapture q.queueHead fifo t }

/-- The initial values of the globals: carry-on flag `false`, state
`stopped`, default-constructed (invalid) head future. -/
def initQueue : QueueGlobals :=
  { carryOnFlag := false, stateFlag := .stopped, queueHead := .invalid }

/-- The queue globals after running a sequence of operations from the
initial state. -/
def runQueue (ops : List GlobalOp) : QueueGlobals := ops.foldl stepQueue initQueue

end receiverQueue

namespace alsaClient

open receiverQueue

/-- Embedding of the `alsaClient` state enum
(`alsa_client.h:166-170`). -/
inductive ClientState where
  | closed : ClientState
  | idle : ClientState
  | running : ClientState
deriving DecidableEq

/-- Embedding of `parseAlsaEvent` (`alsa_client.cpp:310-326`): the MIDI
byte string decoded from a raw sequencer event, empty for non-MIDI or
undecodable events.  The decoder `snd_midi_event_decode` is alsa-lib
code, outside this repository, so each modelled event carries its
decoded form (see `SndSeqEvent`). -/
def parseAlsaEvent (event : SndSeqEvent) : List Nat := event.midi

/-- Embedding of the `processClosure` loop inside `retrieve`
(`alsa_client.cpp:578-586`) applied to the sequence of closure
invocations made by `receiverQueue::process`: for each `(event,
timeStamp)` pair, decode the event and, when the decoded MIDI event is
non-empty and no error has occurred so far (`!midiEvent.empty() &&
!err`), invoke `forEachClosure` and store its result in `err`.  Returns
the final `err` together with the list of `forEachClosure` invocations
actually made, in order. -/
def applyClosure (forEachClosure : List Nat → Nat → Int) :
    List (SndSeqEvent × Nat) → Int → Int × List (List Nat × Nat)
  | [], err => (err, [])
  | (event, timeStamp) :: rest, err =>
    let midiEvent := parseAlsaEvent event
    if midiEvent ≠ [] ∧ err = 0 then
      let res := applyClosure forEachClosure rest (forEachClosure midiEvent timeStamp)
      (res.1, (midiEvent, timeStamp) :: res.2)
    else
      applyClosure forEachClosure rest err

/-- Embedding of `retrieve` (`alsa_client.cpp:569-589`): when the client
is not in `running` state, return `-1` without touching the queue;
otherwise run `receiverQueue::process` with the error-latching
`processClosure` and return the latched indicator.  The result is
(return value, queue head after the call, `forEachClosure` invocations
in order). -/
def retrieve (stateFlag : ClientState) (queueHead : FutureAlsaEvents) (deadline : Nat)
    (forEachClosure : List Nat → Nat → Int) :
    Int × FutureAlsaEvents × List (List Nat × Nat) :=
  if stateFlag ≠ .running then (-1, queueHead, [])
  else
    let res := receiverQueue.process queueHead deadline
    let folded := applyClosure forEachClosure res.2 0
    (folded.1, res.1, folded.2)

/-- The due, non-empty MIDI events of a drain trace: those closure
invocations whose decoded event is non-empty, each as its decoded bytes
with its timestamp.  These are exactly the events `retrieve` would hand
to a callback that never signals an error. -/
def dueEvents (trace : List (SndSeqEvent × Nat)) : List (List Nat × Nat) :=
  (trace.filter (fun p => parseAlsaEvent p.1 ≠ [])).map (fun p => (parseAlsaEvent p.1, p.2))

/-- The due, non-empty MIDI events a `retrieve` call with the given head
and deadline exposes to its callback. -/
def dueTrace (queueHead : FutureAlsaEvents) (deadline : Nat) : List (List Nat × Nat) :=
  dueEvents (receiverQueue.process queueHead deadline).2

/-- Reference fold describing the error-latching closure: invoke the
callback on each due event in order and stop right after the first
non-zero result, returning that result (or `0` when every invocation
returned `0`) and the invocations made. -/
def stopAtError (forEachClosure : List Nat → Nat → Int) :
    List (List Nat × Nat) → Int × List (List Nat × Nat)
  | [] => (0, [])
  | (midiEvent, timeStamp) :: rest =>
    if forEachClosure midiEvent timeStamp = 0 then
      let res := stopAtError forEachClosure rest
      (res.1, (midiEvent, timeStamp) :: res.2)
    else (forEachClosure midiEvent timeStamp, [(midiEvent, timeStamp)])

end alsaClient

namespace jackClient

/-- Embedding of `sysClock::TICKS_PER_SECOND` (`sys_clock.h`): the
period denominator of the system clock; the high-resolution clock ticks
in nanoseconds. -/
def TICKS_PER_SECOND : Int := 1000000000

/-- Embedding of `duration2frames` (`jack_client.h:50-52`):
`((double)(sampleRate() * duration.count())) / (double)TICKS_PER_SECOND`.
The `double` value is modelled as an exact rational; note that the
quotient is returned as is, without rounding. -/
def duration2frames (sampleRate : Int) (duration : Int) : ℚ :=
  ((sampleRate * duration : Int) : ℚ) / (TICKS_PER_SECOND : ℚ)

/-- Function `std::round`: round half away from zero. -/
def cppRound (x : ℚ) : Int :=
  if 0 ≤ x then ⌊x + 1 / 2⌋ else -⌊-x + 1 / 2⌋

/-- Embedding of `frames2duration` (`jack_client.h:59-62`):
`SysTimeUnits{(long)std::round(frames * TICKS_PER_SECOND /
(double)sampleRate())}`; the returned duration is its tick count. -/
def frames2duration (sampleRate : Int) (frames : ℚ) : Int :=
  cppRound (frames * (TICKS_PER_SECOND : ℚ) / (sampleRate : ℚ))

/-- Modelled from the spec: the Clock Reconciler state
`{cycleLength, lastDeadline}` of spec §4.3 together with the
resynchronization counter declared as `g_resetTimingCount` in
`jack_client.h:64-68`.  The defining code of `newDeadline()` /
`resetTiming()` is not present under `src/` (the `jack_client.cpp` in
the tree carries a different, frame-clock revision); only this
declaration and the `stableTiming` test refer to it. -/
structure ClockModel where
  cycleLength : Int
  lastDeadline : Int
  resetTimingCount : Nat
deriving DecidableEq

/-- Modelled from the spec: the host data `resetTiming()` queries — the
sample rate in effect, the host's current best estimate of the cycle
length in frames, and the frames elapsed since cycle start. -/
structure HostTiming where
  sampleRate : Int
  cycleFrames : ℚ
  framesElapsed : ℚ
deriving DecidableEq

/-- Modelled from the spec: `resetTiming()` queries the host for its
current cycle length and frames elapsed since cycle start, recomputes
`lastDeadline = now - durationOf(framesElapsed)` and records a
resynchronization event (increments `g_resetTimingCount`).  Durations
are obtained from frames with the in-tree `frames2duration`. -/
def resetTiming (now : Int) (host : HostTiming) (m : ClockModel) : ClockModel :=
  { cycleLength := frames2duration host.sampleRate host.cycleFrames,
    lastDeadline := now - frames2duration host.sampleRate host.framesElapsed,
    resetTimingCount := m.resetTimingCount + 1 }

/-- Modelled from the spec: `newDeadline()` computes
`tentative = lastDeadline + cycleLength` and accepts it when it is
plausible — within `[now - cycleLength, now)` — otherwise it calls
`resetTiming()` and returns the recomputed deadline. -/
def newDeadline (now : Int) (host : HostTiming) (m : ClockModel) : Int × ClockModel :=
  let tentative := m.lastDeadline + m.cycleLength
  if now - m.cycleLength ≤ tentative ∧ tentative < now then
    (tentative, { m with lastDeadline := tentative })
  else
    let m2 := resetTiming now host m
    (m2.lastDeadline, m2)

end jackClient

open receiverQueue

/-- A sample MIDI note-on event. -/
def evA : SndSeqEvent := ⟨[144, 60, 100]⟩

/-- A sample MIDI note-off event. -/
def evB : SndSeqEvent := ⟨[128, 60, 0]⟩

/-- A sample MIDI control-change event. -/
def evC : SndSeqEvent := ⟨[176, 7, 0]⟩

theorem retrieveEvents_eq_reverse (fifo : List SndSeqEvent) :
    retrieveEvents fifo = fifo.reverse := by
  suffices h : ∀ acc : List SndSeqEvent,
      fifo.foldl (fun eventList e => e :: eventList) acc = fifo.reverse ++ acc by
    simp [retrieveEvents, h []]
  induction fifo with
  | nil => intro acc; simp
  | cons e rest ih => intro acc; simp [List.foldl_cons, ih]

/-- C1 counterexample: with one ready batch whose arrival timestamp (5)
equals the caller-supplied deadline (5) — "at or before" the deadline —
`processInternal` does *not* deliver the batch: it re-wraps it unchanged
and invokes the callback zero times (the code withholds whenever
`timestamp >= deadline`, `alsa_receiver_queue.cpp:203`).  This refutes
"delivered exactly when the arrival timestamp is at or before the
deadline / withheld only when strictly greater". -/
theorem C1_boundary_counterexample :
    (5 : Nat) ≤ 5 ∧
      processInternal (.batch [evA] 5 .pending) 5 = (.batch [evA] 5 .pending, []) ∧
      (processInternal (.batch [evA] 5 .pending) 5).2 ≠ [(evA, 5)] := by
  refine ⟨le_refl 5, ?_, ?_⟩ <;> decide

/-- C1 amended: for every ready batch at the head of the chain, the
batch's events are delivered to the callback exactly when the batch's
arrival timestamp is *strictly before* the deadline, and the batch is
withheld (re-wrapped unchanged, callback not invoked) exactly when its
arrival timestamp is at or after the deadline. -/
theorem C1_strict_deadline_delivery (events : List SndSeqEvent) (timeStamp : Nat)
    (next : FutureAlsaEvents) (deadline : Nat) :
    processInternal (.batch events timeStamp next) deadline =
      if timeStamp < deadline then
        ((processInternal next deadline).1,
          events.map (fun e => (e, timeStamp)) ++ (processInternal next deadline).2)
      else (.batch events timeStamp next, []) := by
  by_cases h : timeStamp < deadline
  · have hge : ¬ timeStamp ≥ deadline := by omega
    simp [processInternal, hge, h]
  · have hge : timeStamp ≥ deadline := by omega
    simp [processInternal, hge, h]

/-- C4: a ready batch whose arrival timestamp lies beyond the drain
deadline is handed back as the new head, byte-identical (same event list,
same timestamp, same `next` handle), with the callback not invoked; a
later drain with a deadline beyond the batch's timestamp delivers exactly
those events, order-preserved, before continuing with the untouched
`next`. -/
theorem C4_reinsertion_no_loss (events : List SndSeqEvent) (timeStamp : Nat)
    (next : FutureAlsaEvents) (deadline laterDeadline : Nat)
    (h1 : timeStamp > deadline) (h2 : laterDeadline > timeStamp) :
    processInternal (.batch events timeStamp next) deadline =
        (.batch events timeStamp next, []) ∧
      processInternal (.batch events timeStamp next) laterDeadline =
        ((processInternal next laterDeadline).1,
          events.map (fun e => (e, timeStamp)) ++ (processInternal next laterDeadline).2) := by
  constructor
  · have hge : timeStamp ≥ deadline := by omega
    simp [processInternal, hge]
  · have hlt : ¬ timeStamp ≥ laterDeadline := by omega
    simp [processInternal, hlt]

theorem C4_reinsertion_no_loss_witness :
    (7 : Nat) > 3 ∧ (9 : Nat) > 7 ∧
      processInternal (.batch [evA, evB] 7 .pending) 3 =
        (.batch [evA, evB] 7 .pending, []) := by
  refine ⟨by decide, by decide, ?_⟩
  exact (C4_reinsertion_no_loss [evA, evB] 7 .pending 3 9 (by decide) (by decide)).1

/-- C5: a drain whose deadline is strictly before the timestamp of every
batch present in the chain (in particular strictly before the earliest
pending batch timestamp, when one exists) is a no-op: the head is
returned unchanged and the callback is invoked zero times; repeating the
same call on the returned head yields the same no-op result. -/
theorem C5_early_deadline_noop (queueHead : FutureAlsaEvents) (deadline : Nat)
    (hne : chainBatches queueHead ≠ [])
    (h : ∀ b ∈ chainBatches queueHead, deadline < b.2) :
    processInternal queueHead deadline = (queueHead, []) ∧
      processInternal (processInternal queueHead deadline).1 deadline = (queueHead, []) := by
  have hmain : processInternal queueHead deadline = (queueHead, []) := by
    cases queueHead with
    | invalid => simp [chainBatches] at hne
    | pending => simp [chainBatches] at hne
    | cancelled => simp [chainBatches] at hne
    | batch events timeStamp next =>
      have hts : deadline < timeStamp := h (events, timeStamp) (by simp [chainBatches])
      have hge : timeStamp ≥ deadline := by omega
      simp [processInternal, hge]
  exact ⟨hmain, by rw [hmain]; exact hmain⟩

theorem C5_early_deadline_noop_witness :
    chainBatches (.batch [evA] 5 .pending) ≠ [] ∧
      processInternal (.batch [evA] 5 .pending) 3 = (.batch [evA] 5 .pending, []) := by
  refine ⟨by decide, ?_⟩
  exact (C5_early_deadline_noop (.batch [evA] 5 .pending) 3 (by decide)
    (by intro b hb; simp [chainBatches] at hb; simp [hb])).1

theorem appendCapture_chainOfCaptures (cs : List (List SndSeqEvent × Nat))
    (fifo : List SndSeqEvent) (t : Nat) :
    appendCapture (chainOfCaptures cs) fifo t = chainOfCaptures (cs ++ [(fifo, t)]) := by
  induction cs with
  | nil => simp [chainOfCaptures, appendCapture]
  | cons b rest ih => simp [chainOfCaptures, appendCapture, ih]

theorem processInternal_chainOfCaptures (cs : List (List SndSeqEvent × Nat)) (deadline : Nat) :
    processInternal (chainOfCaptures cs) deadline =
      (chainOfCaptures (cs.dropWhile (fun b => b.2 < deadline)),
        (cs.takeWhile (fun b => b.2 < deadline)).flatMap
          (fun b => (retrieveEvents b.1).map (fun e => (e, b.2)))) := by
  induction cs with
  | nil => simp [chainOfCaptures, processInternal]
  | cons b rest ih =>
    by_cases h : b.2 < deadline
    · have hge : ¬ b.2 ≥ deadline := by omega
      simp [chainOfCaptures, processInternal, hge, List.dropWhile_cons, List.takeWhile_cons, h, ih]
    · have hge : b.2 ≥ deadline := by omega
      simp [chainOfCaptures, processInternal, hge, List.dropWhile_cons, List.takeWhile_cons, h]

theorem endsWithDrain_cons_cons (op op2 : ChainOp) (ops : List ChainOp) :
    endsWithDrain (op :: op2 :: ops) = endsWithDrain (op2 :: ops) := by
  cases op <;> rfl

theorem runChain_chainOfCaptures (ops : List ChainOp) :
    ∀ cs : List (List SndSeqEvent × Nat),
      (∀ d ∈ deadlinesOf ops, ∀ b ∈ cs, b.2 < d) →
      drainsCoverPrior ops →
      endsWithDrain ops = true →
      (runChain (chainOfCaptures cs) ops).2 =
        cs.flatMap (fun b => (retrieveEvents b.1).map (fun e => (e, b.2))) ++
          capturedEvents ops := by
  induction ops with
  | nil => intro cs hcov hprior hend; simp [endsWithDrain] at hend
  | cons op ops ih =>
    intro cs hcov hprior hend
    cases op with
    | capture fifo t =>
      cases ops with
      | nil => simp [endsWithDrain] at hend
      | cons op2 rest =>
        rw [endsWithDrain_cons_cons] at hend
        have hcov2 : ∀ d ∈ deadlinesOf (op2 :: rest), ∀ b ∈ cs ++ [(fifo, t)], b.2 < d := by
          intro d hd b hb
          rcases List.mem_append.mp hb with hb1 | hb2
          · exact hcov d (by simpa [deadlinesOf] using hd) b hb1
          · have hb3 : b = (fifo, t) := by simpa using hb2
            subst hb3
            exact hprior.1 d hd
        have hrun : runChain (chainOfCaptures cs) (ChainOp.capture fifo t :: op2 :: rest) =
            runChain (chainOfCaptures (cs ++ [(fifo, t)])) (op2 :: rest) := by
          rw [runChain, appendCapture_chainOfCaptures]
        rw [hrun, ih (cs ++ [(fifo, t)]) hcov2 hprior.2 hend]
        simp [capturedEvents, retrieveEvents_eq_reverse]
    | drain d =>
      have hall : ∀ b ∈ cs, b.2 < d := hcov d (by simp [deadlinesOf])
      have htake : cs.takeWhile (fun b => b.2 < d) = cs := by
        rw [List.takeWhile_eq_self_iff]
        intro b hb
        simpa using hall b hb
      have hdrop : cs.dropWhile (fun b => b.2 < d) = [] := by
        rw [List.dropWhile_eq_nil_iff]
        intro b hb
        simpa using hall b hb
      cases ops with
      | nil =>
        simp [runChain, processInternal_chainOfCaptures, htake, capturedEvents]
      | cons op2 rest =>
        rw [endsWithDrain_cons_cons] at hend
        have hrest := ih [] (by intro d2 hd2 b hb; simp at hb) hprior hend
        simp only [runChain, processInternal_chainOfCaptures, htake, hdrop]
        simpa [chainOfCaptures, capturedEvents] using hrest

/-- C2 counterexample: the listener captures two events — first `evA`,
then `evB` (that is the arrival order inside one wakeup) — into one
batch; a single drain whose deadline covers the batch invokes the
callback in the order `evB`, `evA`: the reverse of the arrival order
within the batch, because `retrieveEvents` prepends each event taken
from the sequencer FIFO (`push_front`,
`alsa_receiver_queue.cpp:292`). -/
theorem C2_batch_order_counterexample :
    (runChain .pending [ChainOp.capture [evA, evB] 0, ChainOp.drain 9]).2 =
        [(evB, 0), (evA, 0)] ∧
      [(evB, 0), (evA, 0)] ≠ [(evA, 0), (evB, 0)] := by
  constructor <;> decide

/-- C2 amended: for every interleaving of listener captures and drain
calls with non-decreasing deadlines, each deadline exceeding the
timestamps of all events captured before that call, ending in a drain
call, the callback is invoked exactly N times for the N captured
events, each event exactly once, with batches in arrival order, and
within a single batch once per event in *reverse* arrival order (the
order `retrieveEvents` stored them in). -/
theorem C2_exactly_once_reverse_within_batch (ops : List ChainOp)
    (_hsorted : List.Sorted (· ≤ ·) (deadlinesOf ops))
    (hprior : drainsCoverPrior ops)
    (hfinal : endsWithDrain ops = true) :
    (runChain .pending ops).2 = capturedEvents ops := by
  have h := runChain_chainOfCaptures ops [] (by intro d hd b hb; simp at hb) hprior hfinal
  simpa [chainOfCaptures] using h

theorem C2_exactly_once_reverse_within_batch_witness :
    (runChain .pending [ChainOp.capture [evA, evB] 0, ChainOp.drain 3,
        ChainOp.capture [evC] 4, ChainOp.drain 6]).2 =
      capturedEvents [ChainOp.capture [evA, evB] 0, ChainOp.drain 3,
        ChainOp.capture [evC] 4, ChainOp.drain 6] := by
  refine C2_exactly_once_reverse_within_batch _ ?_ ?_ (by decide)
  · simp [deadlinesOf, List.sorted_cons]
  · refine ⟨?_, ?_, trivial⟩ <;> simp [deadlinesOf, drainsCoverPrior]

open alsaClient

/-- C3 counterexample: a `retrieve` call while the client is `idle` (not
running) leaves the queue untouched and invokes the callback zero
times, but returns `-1` — the documented error indicator
("a non zero value if an error occurred", `alsa_client.h:263`) — so the
call does signal an error, refuting "never signals an error"
(`alsa_client.cpp:570-573`). -/
theorem C3_stopped_error_counterexample :
    retrieve .idle (.batch [evA] 0 .pending) 5 (fun _ _ => 0) =
        (-1, .batch [evA] 0 .pending, []) ∧ (-1 : Int) ≠ 0 := by
  constructor
  · rfl
  · decide

/-- C3 amended: for every `retrieve` call made while the client is not
in `running` state, the queue head is left unchanged and the per-event
callback is invoked zero times, but the call returns the error
indicator `-1` (a non-zero value) rather than success. -/
theorem C3_stopped_returns_error_indicator (stateFlag : ClientState)
    (queueHead : FutureAlsaEvents) (deadline : Nat)
    (forEachClosure : List Nat → Nat → Int) (h : stateFlag ≠ .running) :
    retrieve stateFlag queueHead deadline forEachClosure = (-1, queueHead, []) := by
  simp [retrieve, h]

theorem C3_stopped_returns_error_indicator_witness :
    ClientState.idle ≠ ClientState.running ∧
      retrieve .idle .invalid 0 (fun _ _ => 0) = (-1, .invalid, []) :=
  ⟨by decide, C3_stopped_returns_error_indicator .idle .invalid 0 (fun _ _ => 0) (by decide)⟩

theorem applyClosure_nonzero (f : List Nat → Nat → Int) (tr : List (SndSeqEvent × Nat)) :
    ∀ err : Int, err ≠ 0 → applyClosure f tr err = (err, []) := by
  induction tr with
  | nil => intro err _; rfl
  | cons p rest ih =>
    intro err h
    obtain ⟨e, ts⟩ := p
    have hcond : ¬ (parseAlsaEvent e ≠ [] ∧ err = 0) := by
      intro hc
      exact h hc.2
    simp [applyClosure, hcond, ih err h]

theorem applyClosure_eq_stopAtError (f : List Nat → Nat → Int)
    (tr : List (SndSeqEvent × Nat)) :
    applyClosure f tr 0 = stopAtError f (dueEvents tr) := by
  induction tr with
  | nil => rfl
  | cons p rest ih =>
    obtain ⟨e, ts⟩ := p
    by_cases he : parseAlsaEvent e = []
    · have hdue : dueEvents ((e, ts) :: rest) = dueEvents rest := by
        simp [dueEvents, List.filter_cons, he]
      have happ : applyClosure f ((e, ts) :: rest) 0 = applyClosure f rest 0 := by
        simp [applyClosure, he]
      rw [hdue, happ, ih]
    · have hdue : dueEvents ((e, ts) :: rest) =
          (parseAlsaEvent e, ts) :: dueEvents rest := by
        simp [dueEvents, List.filter_cons, he]
      have happ : applyClosure f ((e, ts) :: rest) 0 =
          ((applyClosure f rest (f (parseAlsaEvent e) ts)).1,
            (parseAlsaEvent e, ts) :: (applyClosure f rest (f (parseAlsaEvent e) ts)).2) := by
        simp [applyClosure, he]
      by_cases hr : f (parseAlsaEvent e) ts = 0
      · rw [hdue, happ, hr, ih]
        simp [stopAtError, hr]
      · rw [hdue, happ, applyClosure_nonzero f rest _ hr]
        simp [stopAtError, hr]

theorem stopAtError_first_error (f : List Nat → Nat → Int) :
    ∀ (L : List (List Nat × Nat)) (k : Nat) (hk : k < L.length),
      (∀ i (h : i < k), f (L.get ⟨i, lt_trans h hk⟩).1 (L.get ⟨i, lt_trans h hk⟩).2 = 0) →
      f (L.get ⟨k, hk⟩).1 (L.get ⟨k, hk⟩).2 ≠ 0 →
      stopAtError f L = (f (L.get ⟨k, hk⟩).1 (L.get ⟨k, hk⟩).2, L.take (k + 1)) := by
  intro L
  induction L with
  | nil => intro k hk; simp at hk
  | cons p rest ih =>
    intro k hk h0 hnz
    obtain ⟨m, ts⟩ := p
    cases k with
    | zero =>
      simp only [List.get] at hnz ⊢
      simp [stopAtError, hnz]
    | succ k =>
      have hp0 : f m ts = 0 := by
        have h := h0 0 (Nat.succ_pos k)
        simpa [List.get] using h
      have hk2 : k < rest.length := by
        simpa [List.length_cons, Nat.succ_lt_succ_iff] using hk
      have h02 : ∀ i (h : i < k),
          f (rest.get ⟨i, lt_trans h hk2⟩).1 (rest.get ⟨i, lt_trans h hk2⟩).2 = 0 := by
        intro i hi
        have h := h0 (i + 1) (Nat.succ_lt_succ hi)
        simpa [List.get] using h
      have hnz2 : f (rest.get ⟨k, hk2⟩).1 (rest.get ⟨k, hk2⟩).2 ≠ 0 := by
        simpa [List.get] using hnz
      have hrec := ih k hk2 h02 hnz2
      simp [stopAtError, hp0, hrec, List.take, List.get]

/-- C8: when the per-event callback returns its first non-zero
indicator at position `k` of the due events of a `retrieve` call, no
further callback invocation occurs within that call (the invocation
list is cut off right after position `k`), the indicator is propagated
as the call's return value, and the events already dispatched (the
first `k + 1` due events, in order) stay dispatched — delivery is
at-most-once, not transactional (`alsa_client.cpp:575-589`). -/
theorem C8_error_stops_dispatch (queueHead : FutureAlsaEvents) (deadline : Nat)
    (f : List Nat → Nat → Int) (k : Nat)
    (hk : k < (dueTrace queueHead deadline).length)
    (h0 : ∀ i (h : i < k),
      f ((dueTrace queueHead deadline).get ⟨i, lt_trans h hk⟩).1
        ((dueTrace queueHead deadline).get ⟨i, lt_trans h hk⟩).2 = 0)
    (hnz : f ((dueTrace queueHead deadline).get ⟨k, hk⟩).1
      ((dueTrace queueHead deadline).get ⟨k, hk⟩).2 ≠ 0) :
    retrieve .running queueHead deadline f =
      (f ((dueTrace queueHead deadline).get ⟨k, hk⟩).1
          ((dueTrace queueHead deadline).get ⟨k, hk⟩).2,
        (process queueHead deadline).1,
        (dueTrace queueHead deadline).take (k + 1)) := by
  have hmain := stopAtError_first_error f (dueTrace queueHead deadline) k hk h0 hnz
  have hret : retrieve .running queueHead deadline f =
      ((stopAtError f (dueTrace queueHead deadline)).1,
        (process queueHead deadline).1,
        (stopAtError f (dueTrace queueHead deadline)).2) := by
    simp [retrieve, applyClosure_eq_stopAtError, dueTrace]
  rw [hret, hmain]

theorem C8_error_stops_dispatch_witness :
    retrieve .running (.batch [evA, evB, evC] 0 .pending) 1
        (fun m _ => if m = [128, 60, 0] then 5 else 0) =
      (5, .pending, [([144, 60, 100], 0), ([128, 60, 0], 0)]) := by
  rw [C8_error_stops_dispatch (.batch [evA, evB, evC] 0 .pending) 1
    (fun m _ => if m = [128, 60, 0] then 5 else 0) 1 (by decide) (by decide) (by decide)]
  decide

theorem process_eq_processInternal (queueHead : FutureAlsaEvents) (deadline : Nat) :
    process queueHead deadline = processInternal queueHead deadline := by
  cases queueHead <;> simp [process, validFuture, processInternal]

theorem processInternal_trace_lt (queueHead : FutureAlsaEvents) (deadline : Nat) :
    ∀ p ∈ (processInternal queueHead deadline).2, p.2 < deadline := by
  induction queueHead with
  | invalid => simp [processInternal]
  | pending => simp [processInternal]
  | cancelled => simp [processInternal]
  | batch events ts next ih =>
    by_cases h : ts ≥ deadline
    · simp [processInternal, h]
    · intro p hp
      simp only [processInternal, if_neg h, List.mem_append, List.mem_map] at hp
      rcases hp with ⟨e, _, hep⟩ | hp2
      · rw [← hep]
        omega
      · exact ih p hp2

theorem processInternal_remaining_ge (deadline : Nat) (queueHead : FutureAlsaEvents) :
    chainTimestampsMono queueHead →
      ∀ b ∈ chainBatches (processInternal queueHead deadline).1, deadline ≤ b.2 := by
  induction queueHead with
  | invalid => simp [processInternal, chainBatches]
  | pending => simp [processInternal, chainBatches]
  | cancelled => simp [processInternal, chainBatches]
  | batch events ts next ih =>
    intro hmono b hb
    rw [chainTimestampsMono] at hmono
    by_cases h : ts ≥ deadline
    · simp only [processInternal, if_pos h, chainBatches, List.mem_cons] at hb
      rcases hb with hb1 | hb2
      · rw [hb1]
        exact h
      · exact le_trans h (hmono.1 b hb2)
    · simp only [processInternal, if_neg h] at hb
      exact ih hmono.2 b hb

theorem processInternal_trace_ge (lowerBound laterDeadline : Nat)
    (queueHead : FutureAlsaEvents) :
    (∀ b ∈ chainBatches queueHead, lowerBound ≤ b.2) →
      ∀ p ∈ (processInternal queueHead laterDeadline).2, lowerBound ≤ p.2 := by
  induction queueHead with
  | invalid => simp [processInternal]
  | pending => simp [processInternal]
  | cancelled => simp [processInternal]
  | batch events ts next ih =>
    intro hlb p hp
    by_cases h : ts ≥ laterDeadline
    · simp [processInternal, h] at hp
    · simp only [processInternal, if_neg h, List.mem_append, List.mem_map] at hp
      rcases hp with ⟨e, _, hep⟩ | hp2
      · rw [← hep]
        exact hlb (events, ts) (by simp [chainBatches])
      · refine ih ?_ p hp2
        intro b hb
        exact hlb b (by simp [chainBatches, hb])

theorem dueEvents_snd_mem (tr : List (SndSeqEvent × Nat)) :
    ∀ p ∈ dueEvents tr, ∃ q ∈ tr, p.2 = q.2 := by
  intro p hp
  simp only [dueEvents, List.mem_map, List.mem_filter] at hp
  obtain ⟨q, ⟨hq, _⟩, hpq⟩ := hp
  refine ⟨q, hq, ?_⟩
  rw [← hpq]

/-- C10: when the per-event callback first returns a non-zero indicator
at position `k` of the due events of a `retrieve` call on a chain with
non-decreasing timestamps, the drain nevertheless keeps consuming:
(1) the resulting head is exactly the head full processing produces,
irrespective of the callback; (2) every batch left in the chain has a
timestamp at or after the deadline — every due batch was consumed and
removed; (3) the callback invocations stop right after position `k`, so
the remaining due events were never delivered; (4) every due event of
this call is timestamped strictly before the deadline, while (5) any
later drain of the resulting head only ever delivers events timestamped
at or after the deadline — hence the dropped events are not observable
by any later drain call (`alsa_client.cpp:575-589`,
`alsa_receiver_queue.cpp:199-220`). -/
theorem C10_error_drops_remaining_due (queueHead : FutureAlsaEvents) (deadline : Nat)
    (f : List Nat → Nat → Int) (k : Nat)
    (hmono : chainTimestampsMono queueHead)
    (hk : k < (dueTrace queueHead deadline).length)
    (h0 : ∀ i (h : i < k),
      f ((dueTrace queueHead deadline).get ⟨i, lt_trans h hk⟩).1
        ((dueTrace queueHead deadline).get ⟨i, lt_trans h hk⟩).2 = 0)
    (hnz : f ((dueTrace queueHead deadline).get ⟨k, hk⟩).1
      ((dueTrace queueHead deadline).get ⟨k, hk⟩).2 ≠ 0) :
    (retrieve .running queueHead deadline f).2.1 = (process queueHead deadline).1 ∧
      (∀ b ∈ chainBatches (retrieve .running queueHead deadline f).2.1,
        deadline ≤ b.2) ∧
      (retrieve .running queueHead deadline f).2.2 =
        (dueTrace queueHead deadline).take (k + 1) ∧
      (∀ p ∈ dueTrace queueHead deadline, p.2 < deadline) ∧
      (∀ laterDeadline : Nat,
        ∀ p ∈ (processInternal (retrieve .running queueHead deadline f).2.1
          laterDeadline).2, deadline ≤ p.2) := by
  have hmain := stopAtError_first_error f (dueTrace queueHead deadline) k hk h0 hnz
  have hhead : (retrieve .running queueHead deadline f).2.1 =
      (process queueHead deadline).1 := by
    simp [retrieve]
  have hrem : ∀ b ∈ chainBatches (retrieve .running queueHead deadline f).2.1,
      deadline ≤ b.2 := by
    rw [hhead, process_eq_processInternal]
    exact processInternal_remaining_ge deadline queueHead hmono
  refine ⟨hhead, hrem, ?_, ?_, ?_⟩
  · have hinv : (retrieve .running queueHead deadline f).2.2 =
        (stopAtError f (dueTrace queueHead deadline)).2 := by
      simp [retrieve, applyClosure_eq_stopAtError, dueTrace]
    rw [hinv, hmain]
  · intro p hp
    obtain ⟨q, hq, hpq⟩ := dueEvents_snd_mem (process queueHead deadline).2 p hp
    rw [process_eq_processInternal] at hq
    rw [hpq]
    exact processInternal_trace_lt queueHead deadline q hq
  · intro laterDeadline p hp
    exact processInternal_trace_ge deadline laterDeadline
      (retrieve .running queueHead deadline f).2.1 hrem p hp

theorem C10_error_drops_remaining_due_witness :
    (retrieve .running (.batch [evA] 0 (.batch [evB] 1 .pending)) 2
        (fun _ _ => 3)).2.1 = .pending ∧
      (retrieve .running (.batch [evA] 0 (.batch [evB] 1 .pending)) 2
        (fun _ _ => 3)).2.2 = [([144, 60, 100], 0)] := by
  have h := C10_error_drops_remaining_due (.batch [evA] 0 (.batch [evB] 1 .pending)) 2
    (fun _ _ => 3) 0 (by simp [chainTimestampsMono, chainBatches]) (by decide)
    (by intro i hi; omega) (by decide)
  constructor
  · rw [h.1]
    decide
  · rw [h.2.2.1]
    decide

theorem stoppedInvariant_step (q : QueueGlobals) (op : GlobalOp)
    (hq : q.stateFlag = .stopped → q.carryOnFlag = false ∧ q.queueHead = .invalid) :
    (stepQueue q op).stateFlag = .stopped →
      (stepQueue q op).carryOnFlag = false ∧ (stepQueue q op).queueHead = .invalid := by
  cases op with
  | startOp =>
    by_cases h : q.stateFlag = .running
    · simp [stepQueue, start, h, stopInternal]
    · simp [stepQueue, start, h]
  | stopOp => simp [stepQueue, stop, stopInternal]
  | processOp d =>
    intro hs
    have hs2 : q.stateFlag = .stopped := by simpa [stepQueue] using hs
    obtain ⟨hc, hh⟩ := hq hs2
    constructor
    · simpa [stepQueue] using hc
    · simp [stepQueue, hh, process, validFuture]
  | captureOp fifo t =>
    intro hs
    have hs2 : q.stateFlag = .stopped := by simpa [stepQueue] using hs
    obtain ⟨hc, hh⟩ := hq hs2
    constructor
    · simpa [stepQueue] using hc
    · simp [stepQueue, hh, appendCapture]

theorem stoppedInvariant_runQueue (ops : List GlobalOp) :
    (runQueue ops).stateFlag = .stopped →
      (runQueue ops).carryOnFlag = false ∧ (runQueue ops).queueHead = .invalid := by
  suffices h : ∀ q : QueueGlobals,
      (q.stateFlag = .stopped → q.carryOnFlag = false ∧ q.queueHead = .invalid) →
      ((ops.foldl stepQueue q).stateFlag = .stopped →
        (ops.foldl stepQueue q).carryOnFlag = false ∧
          (ops.foldl stepQueue q).queueHead = .invalid) by
    exact h initQueue (by intro _; exact ⟨rfl, rfl⟩)
  induction ops with
  | nil => intro q hq; simpa using hq
  | cons op rest ih =>
    intro q hq
    simp only [List.foldl_cons]
    exact ih (stepQueue q op) (stoppedInvariant_step q op hq)

/-- C9: after every `stop()` call the queue state is `stopped` and every
reachable `AlsaEventBatch` has been discarded — the stored head is reset
to an empty (invalid) future, so the chain holds no batches
(`alsa_receiver_queue.cpp:242-253` and `261-267`); and for every
sequence of operations on the queue globals that leaves the state
`stopped`, a further `stop()` call is a no-op on the observable state
(carry-on flag, state flag and stored head are all unchanged). -/
theorem C9_stop_discards_and_stopped_noop (q : QueueGlobals) (ops : List GlobalOp) :
    (stop q).stateFlag = .stopped ∧
      (stop q).queueHead = .invalid ∧
      chainBatches (stop q).queueHead = [] ∧
      ((runQueue ops).stateFlag = .stopped → stop (runQueue ops) = runQueue ops) := by
  refine ⟨rfl, rfl, rfl, ?_⟩
  intro hs
  obtain ⟨hc, hh⟩ := stoppedInvariant_runQueue ops hs
  calc stop (runQueue ops)
      = { carryOnFlag := false, stateFlag := State.stopped,
          queueHead := FutureAlsaEvents.invalid } := rfl
    _ = { carryOnFlag := (runQueue ops).carryOnFlag,
          stateFlag := (runQueue ops).stateFlag,
          queueHead := (runQueue ops).queueHead } := by rw [hc, hs, hh]
    _ = runQueue ops := rfl

theorem C9_stop_discards_and_stopped_noop_witness :
    (runQueue [GlobalOp.startOp, GlobalOp.stopOp]).stateFlag = State.stopped ∧
      stop (runQueue [GlobalOp.startOp, GlobalOp.stopOp]) =
        runQueue [GlobalOp.startOp, GlobalOp.stopOp] :=
  ⟨by decide, (C9_stop_discards_and_stopped_noop initQueue
      [GlobalOp.startOp, GlobalOp.stopOp]).2.2.2 (by decide)⟩

theorem abs_cppRound_sub_le (x : ℚ) : |(jackClient.cppRound x : ℚ) - x| ≤ 1 / 2 := by
  unfold jackClient.cppRound
  by_cases h : 0 ≤ x
  · rw [if_pos h, ← round_eq, abs_sub_comm]
    exact abs_sub_round x
  · rw [if_neg h, ← round_eq]
    push_cast
    have heq : -((round (-x) : ℤ) : ℚ) - x = -x - ((round (-x) : ℤ) : ℚ) := by ring
    rw [heq]
    exact abs_sub_round (-x)

/-- C7 counterexample: at sample rate 48000 and a duration of one
clock tick, `duration2frames` returns the raw quotient `3 / 62500`
(`= 0.000048`), not its rounding `0`: the source computes
`((double)(sampleRate * duration.count())) / (double)TICKS_PER_SECOND`
without any call to `round` (`jack_client.h:50-52`), refuting
"duration-to-frames returns round(sampleRate * d / ticksPerSecond)". -/
theorem C7_duration2frames_not_rounded_counterexample :
    jackClient.duration2frames 48000 1 = 3 / 62500 ∧
      jackClient.cppRound (((48000 * 1 : Int) : ℚ) /
        (jackClient.TICKS_PER_SECOND : ℚ)) = 0 ∧
      jackClient.duration2frames 48000 1 ≠
        ((jackClient.cppRound (((48000 * 1 : Int) : ℚ) /
          (jackClient.TICKS_PER_SECOND : ℚ)) : Int) : ℚ) := by
  refine ⟨?_, ?_, ?_⟩ <;>
    norm_num [jackClient.duration2frames, jackClient.cppRound,
      jackClient.TICKS_PER_SECOND]

/-- C7 amended: `duration2frames` returns the *exact, unrounded*
quotient `sampleRate * duration / ticksPerSecond` (characterized by the
product identity below), while `frames2duration` returns
`round(frames * ticksPerSecond / sampleRate)` — the rounding (round
half away from zero, `std::round`) lies within one half tick of the
exact quotient; both use the sample rate passed in (the value in effect
at call time). -/
theorem C7_conversion_semantics (sampleRate duration : Int) (frames : ℚ) :
    jackClient.duration2frames sampleRate duration * (jackClient.TICKS_PER_SECOND : ℚ) =
        ((sampleRate * duration : Int) : ℚ) ∧
      jackClient.frames2duration sampleRate frames =
        jackClient.cppRound (frames * (jackClient.TICKS_PER_SECOND : ℚ) /
          (sampleRate : ℚ)) ∧
      |(jackClient.frames2duration sampleRate frames : ℚ) -
          frames * (jackClient.TICKS_PER_SECOND : ℚ) / (sampleRate : ℚ)| ≤ 1 / 2 := by
  refine ⟨?_, rfl, ?_⟩
  · unfold jackClient.duration2frames
    rw [div_mul_cancel₀]
    norm_num [jackClient.TICKS_PER_SECOND]
  · exact abs_cppRound_sub_le _

/-- C6 (the `newDeadline` / `resetTiming` implementation is modelled
from the spec, since only its `g_resetTimingCount` declaration and tests
exist under `src/`): every `newDeadline()` call computes
`tentative = lastDeadline + cycleLength` and returns it exactly when it
lies within `[now - cycleLength, now)`; otherwise it calls
`resetTiming()`, which recomputes
`lastDeadline = now - durationOf(framesElapsed)` from the host's current
cycle data (its current cycle length estimate and frames elapsed since
cycle start, converted with `frames2duration`) and records a
resynchronization event by incrementing the reset counter. -/
theorem C6_newDeadline_plausibility (now : Int) (host : jackClient.HostTiming)
    (m : jackClient.ClockModel) :
    (jackClient.newDeadline now host m =
        (m.lastDeadline + m.cycleLength,
          { m with lastDeadline := m.lastDeadline + m.cycleLength }) ↔
      (now - m.cycleLength ≤ m.lastDeadline + m.cycleLength ∧
        m.lastDeadline + m.cycleLength < now)) ∧
      (¬ (now - m.cycleLength ≤ m.lastDeadline + m.cycleLength ∧
          m.lastDeadline + m.cycleLength < now) →
        jackClient.newDeadline now host m =
          (now - jackClient.frames2duration host.sampleRate host.framesElapsed,
            { cycleLength := jackClient.frames2duration host.sampleRate host.cycleFrames,
              lastDeadline :=
                now - jackClient.frames2duration host.sampleRate host.framesElapsed,
              resetTimingCount := m.resetTimingCount + 1 })) := by
  constructor
  · constructor
    · intro h
      by_cases hp : now - m.cycleLength ≤ m.lastDeadline + m.cycleLength ∧
          m.lastDeadline + m.cycleLength < now
      · exact hp
      · exfalso
        simp only [jackClient.newDeadline, if_neg hp] at h
        have h2 := congrArg (fun p => p.2.resetTimingCount) h
        simp [jackClient.resetTiming] at h2
    · intro hp
      simp only [jackClient.newDeadline, if_pos hp]
  · intro hp
    simp only [jackClient.newDeadline, if_neg hp]
    rfl

theorem C6_newDeadline_plausibility_witness :
    ¬ ((1000 : Int) - 100 ≤ 0 + 100 ∧ (0 : Int) + 100 < 1000) ∧
      jackClient.newDeadline 1000 ⟨48000, 4800, 48⟩ ⟨100, 0, 0⟩ =
        (1000 - jackClient.frames2duration 48000 48,
          { cycleLength := jackClient.frames2duration 48000 4800,
            lastDeadline := 1000 - jackClient.frames2duration 48000 48,
            resetTimingCount := 1 }) :=
  ⟨by decide,
    (C6_newDeadline_plausibility 1000 ⟨48000, 4800, 48⟩ ⟨100, 0, 0⟩).2 (by decide)⟩
